import Mathlib

/-!
# The trade listener and its linked-list buffer (`Listener.c`)

A shallow embedding of `src/lib/wrapper/pxd_include/Listener.c`.

* Node memory is an explicit heap: a finite table from addresses to `struct node`
  cells. `NULL` is address `0` and is never readable.
* A field that `malloc` leaves uninitialised is `none` (`price` and `volume` of a
  node made by `linked_list_init`).
* `malloc` is a parameter of the environment. It may return `NULL` or any address;
  dereferencing `NULL` or an unallocated address is a `fault`.
* Calls to `printf`, `wprintf`, `malloc` and `free` are recorded, with their
  arguments, in a trace, in the order in which they are made.
* The two `while` loops and the `for` loop take fuel; running out is `timeout`.
-/

namespace Listener

/-- A C pointer to a `struct node`. -/
abbrev Ptr := Nat

/-- The null pointer. -/
abbrev NULL : Ptr := 0

/-- The C type `struct node` (typedef `linked_list`), lines 14-19. `D` is the type of the values
of a C `double`; values are only copied, never computed with. `none` is an uninitialised field. -/
structure linked_list (D : Type) where
  price : Option D
  volume : Option D
  data : Bool
  next : Ptr
deriving DecidableEq

/-- The C type `linked_list_ext`, lines 21-24. -/
structure linked_list_ext where
  head : Ptr
  tail : Ptr
deriving DecidableEq

/-- Modelled from the spec: the record type `dxf_trade_t` is declared in `DXFeed.h`, which is
absent; these are the fields `listener` reads, typed as in the data model of the spec
(`price`, `size`, `change`, `day_volume` floating point, `exchange_code` a character code,
`tick` and `scope` integers). -/
structure dxf_trade_t (D : Type) where
  exchange_code : Nat
  price : D
  size : D
  tick : Int
  change : D
  day_volume : D
  scope : Int

/-- The node memory: the allocated cells, most recent write first. -/
structure Heap (D : Type) where
  cells : List (Ptr × linked_list D)

/-- Look an address up in a cell table. -/
def lookup {D : Type} : List (Ptr × linked_list D) → Ptr → Option (linked_list D)
  | [], _ => none
  | (q, n) :: cs, p => if q = p then some n else lookup cs p

/-- Read the cell at `p`: `none` when `p` is `NULL` or not allocated. -/
def Heap.read {D : Type} (h : Heap D) (p : Ptr) : Option (linked_list D) :=
  if p = NULL then none else lookup h.cells p

/-- Write the cell at `p`. -/
def Heap.write {D : Type} (h : Heap D) (p : Ptr) (n : linked_list D) : Heap D :=
  ⟨(p, n) :: h.cells⟩

/-- Release the cell at `p`. -/
def Heap.free {D : Type} (h : Heap D) (p : Ptr) : Heap D :=
  ⟨h.cells.filter (fun c => decide (c.1 ≠ p))⟩

/-- The library calls the code makes, with their arguments. -/
inductive Event (D : Type) where
  /-- Call `malloc(sizeof(linked_list))` in `linked_list_init`, with the address returned. -/
  | malloc (p : Ptr)
  /-- Call `free(curr)` in `delete_list`. -/
  | free (p : Ptr)
  /-- Line 35, `printf("Node number %f\n", price)` in `add_elem`. -/
  | add_elem_printf (price : D)
  /-- Line 50, `printf("Node number %o: %f, %f\n", i++, curr->price, curr->volume)`. -/
  | print_list_printf (i : Int) (price volume : Option D)
  /-- Line 74. -/
  | delete_list_printf1
  /-- Line 80. -/
  | delete_list_printf2
  /-- Line 100, `wprintf(L"%s{symbol=%s, ", dx_event_type_to_string(event_type), symbol_name)`. -/
  | listener_wprintf_symbol (event_type : String) (symbol_name : String)
  /-- Line 103, `printf(L"written: %i", data_count)`. -/
  | listener_printf_count (data_count : Int)
  /-- Line 106, `printf(L"written: %f", a->tail->price)`. -/
  | listener_printf_tail (price : Option D)
  /-- Lines 108-110, the `wprintf` of the fields of `trades[i]`. -/
  | listener_wprintf_trade (t : dxf_trade_t D)

/-- What the code needs from outside: the allocator and `dx_event_type_to_string`, which is
declared in an absent header. -/
structure Env (D : Type) where
  malloc : Heap D → Ptr
  dx_event_type_to_string : Int → String

/-- The machine state: node memory, the `linked_list_ext` that `lle` / `user_data` points to,
and the trace of library calls so far. -/
structure State (D : Type) where
  heap : Heap D
  lle : linked_list_ext
  trace : List (Event D)

/-- The result of running a piece of code. -/
inductive Outcome (α : Type) where
  | done (a : α)
  | fault
  | timeout

/-- Sequencing. -/
def Outcome.bind {α β : Type} : Outcome α → (α → Outcome β) → Outcome β
  | .done a, f => f a
  | .fault, _ => .fault
  | .timeout, _ => .timeout

/-- Record a library call. -/
def State.emit {D : Type} (s : State D) (e : Event D) : State D :=
  { s with trace := s.trace ++ [e] }

/-- An assignment `p->field = v`: a fault when `p` cannot be dereferenced. -/
def State.store {D : Type} (s : State D) (p : Ptr) (f : linked_list D → linked_list D) :
    Outcome (State D) :=
  match s.heap.read p with
  | some n => .done { s with heap := s.heap.write p (f n) }
  | none => .fault

/-- The two's-complement value of a 32-bit C `int` after an arithmetic step: the overflow of
`i++` in `print_list`, which C leaves undefined, is taken to wrap around. -/
def wrap_int (x : Int) : Int := (x + 2 ^ 31) % 2 ^ 32 - 2 ^ 31

/-- Lines 26-31. The result of `malloc` is dereferenced unchecked; the new cell has `data` and
`next` set and `price`, `volume` uninitialised. -/
def linked_list_init {D : Type} (env : Env D) (s : State D) : Outcome (State D × Ptr) :=
  let init := env.malloc s.heap
  let s := s.emit (.malloc init)
  if init = NULL then .fault
  else .done ({ s with heap := s.heap.write init ⟨none, none, false, NULL⟩ }, init)

/-- Lines 33-43. -/
def add_elem {D : Type} (env : Env D) (s : State D) (price volume : D) : Outcome (State D) :=
  let s := s.emit (.add_elem_printf price)
  let node := s.lle.tail
  (linked_list_init env s).bind fun (s, next) =>
  (s.store node fun c => { c with next := next }).bind fun s =>
  (s.store node fun c => { c with price := some price }).bind fun s =>
  (s.store node fun c => { c with data := true }).bind fun s =>
  (s.store node fun c => { c with volume := some volume }).bind fun s =>
  .done { s with lle := { s.lle with tail := next } }

/-- The loop of `print_list`, lines 49-52, from the loop variables `curr` and `i`; it returns
the final state and the final `curr`. -/
def print_list_loop {D : Type} : Nat → State D → Ptr → Int → Outcome (State D × Ptr)
  | 0, _, _, _ => .timeout
  | fuel + 1, s, curr, i =>
    if curr = NULL then .done (s, curr)
    else match s.heap.read curr with
      | none => .fault
      | some n =>
        if n.data then
          print_list_loop fuel (s.emit (.print_list_printf i n.price n.volume)) n.next
            (wrap_int (i + 1))
        else .done (s, curr)

/-- Lines 45-53. -/
def print_list {D : Type} (fuel : Nat) (s : State D) : Outcome (State D) :=
  (print_list_loop fuel s s.lle.head 0).bind fun r => .done r.1

/-- The loop of `delete_list`, lines 75-79, from the loop variable `curr`. -/
def delete_list_loop {D : Type} : Nat → State D → Ptr → Outcome (State D)
  | 0, _, _ => .timeout
  | fuel + 1, s, curr =>
    if curr = NULL then .done s
    else match s.heap.read curr with
      | none => .fault
      | some n =>
        delete_list_loop fuel ({ s with heap := s.heap.free curr }.emit (.free curr)) n.next

/-- Lines 71-83. -/
def delete_list {D : Type} (env : Env D) (fuel : Nat) (s : State D) : Outcome (State D) :=
  (delete_list_loop fuel (s.emit .delete_list_printf1) s.lle.head).bind fun s =>
  (linked_list_init env (s.emit .delete_list_printf2)).bind fun (s, init) =>
  .done { s with lle := { head := init, tail := init } }

/-- One pass through the body of the `for` loop of `listener`, lines 105-110, at index `i`:
a fault when `trades[i]` is outside the array. -/
def listener_body {D : Type} (env : Env D) (data : List (dxf_trade_t D)) (s : State D) (i : Int) :
    Outcome (State D) :=
  match data[i.toNat]? with
  | none => .fault
  | some t =>
    (add_elem env s t.price t.size).bind fun s =>
    match s.heap.read s.lle.tail with
    | none => .fault
    | some n => .done ((s.emit (.listener_printf_tail n.price)).emit (.listener_wprintf_trade t))

/-- The `for` loop of `listener`, lines 104-113, from the loop variable `i`. `i` never exceeds
`data_count`, so `++i` does not overflow. -/
def listener_loop {D : Type} (env : Env D) (data : List (dxf_trade_t D)) (data_count : Int) :
    Nat → State D → Int → Outcome (State D)
  | 0, _, _ => .timeout
  | fuel + 1, s, i =>
    if i < data_count then
      (listener_body env data s i).bind fun s => listener_loop env data data_count fuel s (i + 1)
    else .done s

/-- Lines 94-114. `data` is the array that the argument `data` points to, read as trades;
`user_data` is the `linked_list_ext` of the state. -/
def listener {D : Type} (env : Env D) (fuel : Nat) (event_type : Int) (symbol_name : String)
    (data : List (dxf_trade_t D)) (data_count : Int) (s : State D) : Outcome (State D) :=
  let s := s.emit (.listener_wprintf_symbol (env.dx_event_type_to_string event_type) symbol_name)
  let s := s.emit (.listener_printf_count data_count)
  listener_loop env data data_count fuel s 0

/-! ## Specification vocabulary -/

/-- A stored record: the `price` and `volume` fields of a node. -/
abbrev Record (D : Type) := Option D × Option D

/-- The record that `add_elem` stores for a trade. -/
def dxf_trade_t.record {D : Type} (t : dxf_trade_t D) : Record D := (some t.price, some t.size)

/-- Following `next` from `p` meets nodes with `data = true` holding the records `L`, in
order, and then arrives at `q`. -/
def lseg {D : Type} (h : Heap D) : Ptr → List (Record D) → Ptr → Prop
  | p, [], q => p = q
  | p, r :: rs, q =>
    ∃ n, h.read p = some n ∧ n.data = true ∧ (n.price, n.volume) = r ∧ lseg h n.next rs q

/-- The node at `t` is the end marker: `data = false` and `next = NULL`. -/
def sentinel {D : Type} (h : Heap D) (t : Ptr) : Prop :=
  ∃ n, h.read t = some n ∧ n.data = false ∧ n.next = NULL

/-- The buffer is well formed and stores the sequence `L`: `head` reaches `tail` through
`next` pointers, every node before `tail` has `data = true`, and `tail` has `data = false` and
`next = NULL`. -/
def WellFormed {D : Type} (s : State D) (L : List (Record D)) : Prop :=
  lseg s.heap s.lle.head L s.lle.tail ∧ sentinel s.heap s.lle.tail

/-- Following `next` from `p` visits exactly the nodes at the addresses `as`, in order, and
then arrives at `NULL`. -/
def walk {D : Type} (h : Heap D) : Ptr → List Ptr → Prop
  | p, [] => p = NULL
  | p, a :: as => a = p ∧ ∃ n, h.read p = some n ∧ walk h n.next as

/-- Whether a segment holds on a given heap can be computed. -/
def lseg.dec {D : Type} [DecidableEq D] (h : Heap D) :
    (p : Ptr) → (L : List (Record D)) → (q : Ptr) → Decidable (lseg h p L q)
  | p, [], q => inferInstanceAs (Decidable (p = q))
  | p, r :: rs, q =>
    match hr : h.read p with
    | none => isFalse (fun ⟨_, hn, _⟩ => by rw [hr] at hn; cases hn)
    | some n =>
      if hd : n.data = true then
        if hrec : (n.price, n.volume) = r then
          match lseg.dec h n.next rs q with
          | isTrue hl => isTrue ⟨n, hr, hd, hrec, hl⟩
          | isFalse hl => isFalse (fun ⟨_, hm, _, _, hrest⟩ => by
              rw [hr] at hm; cases hm; exact hl hrest)
        else isFalse (fun ⟨_, hm, _, hrec', _⟩ => by rw [hr] at hm; cases hm; exact hrec hrec')
      else isFalse (fun ⟨_, hm, hd', _⟩ => by rw [hr] at hm; cases hm; exact hd hd')

instance {D : Type} [DecidableEq D] (h : Heap D) (p : Ptr) (L : List (Record D)) (q : Ptr) :
    Decidable (lseg h p L q) := lseg.dec h p L q

instance {D : Type} [DecidableEq D] (h : Heap D) (t : Ptr) : Decidable (sentinel h t) :=
  match hr : h.read t with
  | none => isFalse (fun ⟨_, hn, _⟩ => by rw [hr] at hn; cases hn)
  | some n =>
    if hc : n.data = false ∧ n.next = NULL then isTrue ⟨n, hr, hc⟩
    else isFalse (fun ⟨_, hm, hc'⟩ => by rw [hr] at hm; cases hm; exact hc hc')

instance {D : Type} [DecidableEq D] (s : State D) (L : List (Record D)) :
    Decidable (WellFormed s L) :=
  inferInstanceAs (Decidable (lseg s.heap s.lle.head L s.lle.tail ∧ sentinel s.heap s.lle.tail))

/-- The allocator succeeds and returns an address that is not in use. -/
def Fresh {D : Type} (env : Env D) : Prop :=
  ∀ h : Heap D, env.malloc h ≠ NULL ∧ h.read (env.malloc h) = none

/-- The records printed by `print_list`, in the order printed. -/
def printed {D : Type} : List (Event D) → List (Record D)
  | [] => []
  | .print_list_printf _ p v :: es => (p, v) :: printed es
  | _ :: es => printed es

/-- The addresses passed to `free`, in call order. -/
def freed {D : Type} : List (Event D) → List Ptr
  | [] => []
  | .free p :: es => p :: freed es
  | _ :: es => freed es

/-- The number of calls to `add_elem`: each call makes the `printf` of line 35 once. -/
def add_elem_calls {D : Type} : List (Event D) → Nat
  | [] => 0
  | .add_elem_printf _ :: es => add_elem_calls es + 1
  | _ :: es => add_elem_calls es

/-- A sequence of `add_elem` calls, one per `(price, volume)` pair. -/
def add_elems {D : Type} (env : Env D) : List (D × D) → State D → Outcome (State D)
  | [], s => .done s
  | (price, volume) :: rest, s => (add_elem env s price volume).bind (add_elems env rest)

/-- The arguments of one invocation of `listener`. -/
structure Call (D : Type) where
  event_type : Int
  symbol_name : String
  data : List (dxf_trade_t D)
  data_count : Int

/-- The records that a call submits: the first `data_count` trades of its array. -/
def Call.records {D : Type} (c : Call D) : List (Record D) :=
  (c.data.take c.data_count.toNat).map dxf_trade_t.record

/-- A sequence of invocations of `listener`, one after the other. -/
def listeners {D : Type} (env : Env D) (fuel : Nat) : List (Call D) → State D → Outcome (State D)
  | [], s => .done s
  | c :: cs, s =>
    (listener env fuel c.event_type c.symbol_name c.data c.data_count s).bind
      (listeners env fuel cs)

/-- An allocator that returns the address after the largest one in the table. -/
def bump {D : Type} (h : Heap D) : Ptr := (h.cells.map Prod.fst).foldr max 0 + 1

/-- An environment with the allocator `bump`. -/
def bump_env (D : Type) : Env D := ⟨bump, fun _ => "Trade"⟩

/-- An empty buffer: one sentinel node at address `1`, which is both `head` and `tail`. -/
def empty_state (D : Type) : State D :=
  ⟨⟨[(1, ⟨none, none, false, NULL⟩)]⟩, ⟨1, 1⟩, []⟩

/-- A trade with the given price and size. -/
def trade (price size : Nat) : dxf_trade_t Nat := ⟨65, price, size, 0, price, size, 0⟩

/-- The calls that `print_list` makes for the records `L` when its counter starts at `i`. -/
def print_events {D : Type} : Int → List (Record D) → List (Event D)
  | _, [] => []
  | i, r :: rs => .print_list_printf i r.1 r.2 :: print_events (wrap_int (i + 1)) rs

/-- The state `s'` is the state `s` after the records `rs` were appended to the buffer. -/
structure Pushed {D : Type} (s s' : State D) (rs : List (Record D)) : Prop where
  /-- The buffer stores what it stored, followed by `rs`. -/
  wf : ∀ L, WellFormed s L → WellFormed s' (L ++ rs)
  /-- The `head` field is the same. -/
  head : s'.lle.head = s.lle.head
  /-- Every cell that was allocated, other than the former tail, is the same. -/
  frame : ∀ p, s.heap.read p ≠ none → p ≠ s.lle.tail → s'.heap.read p = s.heap.read p
  /-- The `tail` field is the same or points to a cell that was not allocated. -/
  tail : s'.lle.tail = s.lle.tail ∨ s.heap.read s'.lle.tail = none
  /-- One call of `add_elem` was made for each record. -/
  calls : add_elem_calls s'.trace = add_elem_calls s.trace + rs.length

/-- The records that a sequence of calls submits, in call order. -/
def submitted {D : Type} : List (Call D) → List (Record D)
  | [] => []
  | c :: cs => c.records ++ submitted cs

/-- The total of the non-negative `data_count` values of a sequence of calls. -/
def submitted_count {D : Type} : List (Call D) → Int
  | [] => 0
  | c :: cs => max c.data_count 0 + submitted_count cs

/-- The buffer part of an outcome: node memory and the `linked_list_ext`, without the trace. -/
def Outcome.buffer {D : Type} : Outcome (State D) → Outcome (Heap D × linked_list_ext)
  | .done s => .done (s.heap, s.lle)
  | .fault => .fault
  | .timeout => .timeout

/-- Read the buffer with `print_list` and return the records it prints. -/
def read_back {D : Type} (fuel : Nat) (s : State D) : Outcome (List (Record D)) :=
  (print_list fuel { s with trace := [] }).bind fun s' => .done (printed s'.trace)

/-- An invocation of `listener` in progress: its arguments `data` and `data_count`, and its
loop variable `i`. -/
structure Invocation (D : Type) where
  data : List (dxf_trade_t D)
  data_count : Int
  i : Int

/-- The next pass of the `for` loop of an invocation (lines 104-113), if there is one. -/
def Invocation.step {D : Type} (env : Env D) (s : State D) (v : Invocation D) :
    Outcome (State D × Invocation D) :=
  if v.i < v.data_count then
    (listener_body env v.data s v.i).bind fun s => .done (s, { v with i := v.i + 1 })
  else .done (s, v)

/-- Two invocations of `listener` at work on the same buffer, past their first two prints. The
schedule says which one makes its next loop pass: `false` the first, `true` the second. Each
pass runs undisturbed; `listener` and `add_elem` take no lock, so nothing in the code orders the
passes of one invocation before or after those of the other. -/
def interleave {D : Type} (env : Env D) :
    List Bool → State D → Invocation D → Invocation D →
      Outcome (State D × Invocation D × Invocation D)
  | [], s, a, b => .done (s, a, b)
  | false :: sched, s, a, b =>
    (a.step env s).bind fun r => interleave env sched r.1 r.2 b
  | true :: sched, s, a, b =>
    (b.step env s).bind fun r => interleave env sched r.1 a r.2

/-! ## The heap -/

theorem lookup_filter_ne {D : Type} (cs : List (Ptr × linked_list D)) (p q : Ptr) :
    lookup (cs.filter (fun c => decide (c.1 ≠ p))) q = if p = q then none else lookup cs q := by
  induction cs with
  | nil => simp [lookup]
  | cons c cs ih =>
    obtain ⟨a, n⟩ := c
    by_cases hap : a = p
    · subst hap
      simp only [List.filter, ne_eq, not_true_eq_false, decide_False, lookup]
      rw [ih]
      by_cases hq : a = q <;> simp [hq]
    · simp only [List.filter, ne_eq, hap, not_false_eq_true, decide_True, lookup]
      rw [ih]
      by_cases hq : a = q
      · subst hq
        simp [Ne.symm hap]
      · simp [hq]

theorem read_null {D : Type} (h : Heap D) : h.read NULL = none := by
  simp [Heap.read]

theorem read_write {D : Type} (h : Heap D) (p q : Ptr) (n : linked_list D) (hp : p ≠ NULL) :
    (h.write p n).read q = if p = q then some n else h.read q := by
  unfold Heap.read Heap.write
  by_cases hq : q = NULL
  · subst hq
    simp [hp]
  · simp [hq, lookup]

theorem read_free {D : Type} (h : Heap D) (p q : Ptr) :
    (h.free p).read q = if p = q then none else h.read q := by
  unfold Heap.read Heap.free
  by_cases hq : q = NULL
  · simp [hq]
  · simp only [hq, if_false]
    exact lookup_filter_ne h.cells p q

theorem ne_null_of_read {D : Type} {h : Heap D} {p : Ptr} {n : linked_list D}
    (hr : h.read p = some n) : p ≠ NULL := by
  intro hp
  rw [hp, read_null] at hr
  cases hr

/-! ## `add_elem` -/

/-- What one call of `add_elem` does to a state whose `tail` can be dereferenced. -/
theorem add_elem_done {D : Type} (env : Env D) (s : State D) (price volume : D)
    (n : linked_list D) (hn : s.heap.read s.lle.tail = some n)
    (ha : env.malloc s.heap ≠ NULL) (hne : env.malloc s.heap ≠ s.lle.tail) :
    ∃ s', add_elem env s price volume = .done s' ∧
      s'.lle = ⟨s.lle.head, env.malloc s.heap⟩ ∧
      s'.trace = s.trace ++ [.add_elem_printf price, .malloc (env.malloc s.heap)] ∧
      s'.heap.read s.lle.tail = some ⟨some price, some volume, true, env.malloc s.heap⟩ ∧
      s'.heap.read (env.malloc s.heap) = some ⟨none, none, false, NULL⟩ ∧
      ∀ p, p ≠ s.lle.tail → p ≠ env.malloc s.heap → s'.heap.read p = s.heap.read p := by
  have ht : s.lle.tail ≠ NULL := ne_null_of_read hn
  simp only [add_elem, linked_list_init, State.emit, State.store, Outcome.bind, ha, if_false,
    read_write _ _ _ _ ha, read_write _ _ _ _ ht, hne, hn, if_true]
  refine ⟨_, rfl, rfl, by simp, ?_, ?_, ?_⟩
  · simp [read_write _ _ _ _ ht]
  · simp [read_write _ _ _ _ ht, read_write _ _ _ _ ha, Ne.symm hne]
  · intro p hp hpa
    simp [read_write _ _ _ _ ht, read_write _ _ _ _ ha, Ne.symm hp, Ne.symm hpa]

/-! ## List segments -/

theorem lseg_mono {D : Type} {h h' : Heap D}
    (hh : ∀ p n, h.read p = some n → n.data = true → h'.read p = some n) :
    ∀ (L : List (Record D)) (p q : Ptr), lseg h p L q → lseg h' p L q := by
  intro L
  induction L with
  | nil => intro p q hl; exact hl
  | cons r rs ih =>
    intro p q hl
    obtain ⟨n, hr, hd, hrec, hrest⟩ := hl
    exact ⟨n, hh p n hr hd, hd, hrec, ih _ _ hrest⟩

theorem lseg_snoc {D : Type} {h : Heap D} {t : Ptr} {n : linked_list D}
    (hr : h.read t = some n) (hd : n.data = true) :
    ∀ (L : List (Record D)) (p : Ptr), lseg h p L t →
      lseg h p (L ++ [(n.price, n.volume)]) n.next := by
  intro L
  induction L with
  | nil =>
    intro p hl
    have hp : p = t := hl
    subst hp
    exact ⟨n, hr, hd, rfl, rfl⟩
  | cons r rs ih =>
    intro p hl
    obtain ⟨m, hm, hmd, hrec, hrest⟩ := hl
    exact ⟨m, hm, hmd, hrec, ih _ hrest⟩

/-- A well-formed buffer stores one sequence only. -/
theorem lseg_unique {D : Type} {h : Heap D} {t : Ptr} (ht : sentinel h t) :
    ∀ (L L' : List (Record D)) (p : Ptr), lseg h p L t → lseg h p L' t → L = L' := by
  obtain ⟨n0, hn0, hd0, _⟩ := ht
  intro L
  induction L with
  | nil =>
    intro L' p hl hl'
    have hp : p = t := hl
    subst hp
    cases L' with
    | nil => rfl
    | cons r rs =>
      obtain ⟨m, hm, hmd, _, _⟩ := hl'
      rw [hn0] at hm
      cases hm
      rw [hd0] at hmd
      cases hmd
  | cons r rs ih =>
    intro L' p hl hl'
    obtain ⟨m, hm, hmd, hrec, hrest⟩ := hl
    cases L' with
    | nil =>
      have hp : p = t := hl'
      subst hp
      rw [hn0] at hm
      cases hm
      rw [hd0] at hmd
      cases hmd
    | cons r' rs' =>
      obtain ⟨m', hm', _, hrec', hrest'⟩ := hl'
      rw [hm] at hm'
      cases hm'
      rw [← hrec, ← hrec', ih rs' _ hrest hrest']

theorem WellFormed.unique {D : Type} {s : State D} {L L' : List (Record D)}
    (h : WellFormed s L) (h' : WellFormed s L') : L = L' :=
  lseg_unique h.2 L L' _ h.1 h'.1

/-! ## Traces -/

theorem add_elem_calls_append {D : Type} (es fs : List (Event D)) :
    add_elem_calls (es ++ fs) = add_elem_calls es + add_elem_calls fs := by
  induction es with
  | nil => simp [add_elem_calls]
  | cons e es ih =>
    cases e <;> simp [add_elem_calls, ih]
    omega

theorem printed_append {D : Type} (es fs : List (Event D)) :
    printed (es ++ fs) = printed es ++ printed fs := by
  induction es with
  | nil => simp [printed]
  | cons e es ih => cases e <;> simp [printed, ih]

theorem freed_append {D : Type} (es fs : List (Event D)) :
    freed (es ++ fs) = freed es ++ freed fs := by
  induction es with
  | nil => simp [freed]
  | cons e es ih => cases e <;> simp [freed, ih]

theorem printed_print_events {D : Type} (L : List (Record D)) :
    ∀ i : Int, printed (print_events i L) = L := by
  induction L with
  | nil => intro i; rfl
  | cons r rs ih => intro i; simp [print_events, printed, ih]

theorem print_events_length {D : Type} (L : List (Record D)) :
    ∀ i : Int, (print_events i L).length = L.length := by
  induction L with
  | nil => intro i; rfl
  | cons r rs ih => intro i; simp [print_events, ih]

/-! ## Appending records -/

theorem Pushed.refl {D : Type} (s : State D) : Pushed s s [] where
  wf := fun L hL => by simpa using hL
  head := rfl
  frame := fun _ _ _ => rfl
  tail := Or.inl rfl
  calls := rfl

theorem Pushed.trans {D : Type} {s s' s'' : State D} {rs rs' : List (Record D)}
    (h1 : Pushed s s' rs) (h2 : Pushed s' s'' rs') : Pushed s s'' (rs ++ rs') where
  wf := fun L hL => by
    rw [← List.append_assoc]
    exact h2.wf _ (h1.wf L hL)
  head := h2.head.trans h1.head
  frame := fun p hp hpt => by
    have e1 := h1.frame p hp hpt
    have hpt' : p ≠ s'.lle.tail := by
      rcases h1.tail with ht | ht
      · rw [ht]; exact hpt
      · intro hc; rw [hc] at hp; exact hp ht
    rw [h2.frame p (by rw [e1]; exact hp) hpt', e1]
  tail := by
    rcases h2.tail with ht | ht
    · rw [ht]; exact h1.tail
    · by_cases hc : s''.lle.tail = s.lle.tail
      · exact Or.inl hc
      · right
        by_contra hne
        rw [h1.frame _ hne hc] at ht
        exact hne ht
  calls := by
    rw [h2.calls, h1.calls, List.length_append]; omega

theorem Pushed.emit_right {D : Type} {s s' : State D} {rs : List (Record D)}
    (h : Pushed s s' rs) (e : Event D) (he : add_elem_calls [e] = 0) :
    Pushed s (s'.emit e) rs where
  wf := h.wf
  head := h.head
  frame := h.frame
  tail := h.tail
  calls := by
    show add_elem_calls (s'.trace ++ [e]) = _
    rw [add_elem_calls_append, he, h.calls]; rfl

theorem Pushed.emit_left {D : Type} {s s' : State D} {rs : List (Record D)} (e : Event D)
    (he : add_elem_calls [e] = 0) (h : Pushed (s.emit e) s' rs) : Pushed s s' rs where
  wf := h.wf
  head := h.head
  frame := h.frame
  tail := h.tail
  calls := by
    have := h.calls
    simp only [State.emit, add_elem_calls_append, he] at this
    rw [this]; rfl

/-- One call of `add_elem` on a well-formed buffer appends the record `(price, volume)`. -/
theorem add_elem_pushed {D : Type} (env : Env D) (hf : Fresh env) (s : State D)
    (L : List (Record D)) (hwf : WellFormed s L) (price volume : D) :
    ∃ s', add_elem env s price volume = .done s' ∧
      Pushed s s' [(some price, some volume)] ∧
      s'.lle = ⟨s.lle.head, env.malloc s.heap⟩ ∧
      s'.trace = s.trace ++ [.add_elem_printf price, .malloc (env.malloc s.heap)] ∧
      s'.heap.read s.lle.tail = some ⟨some price, some volume, true, env.malloc s.heap⟩ ∧
      s'.heap.read (env.malloc s.heap) = some ⟨none, none, false, NULL⟩ ∧
      ∀ p, p ≠ s.lle.tail → p ≠ env.malloc s.heap → s'.heap.read p = s.heap.read p := by
  obtain ⟨_, n0, hn0, hd0, hx0⟩ := hwf
  obtain ⟨ha, hfree⟩ := hf s.heap
  have hne : env.malloc s.heap ≠ s.lle.tail := by
    intro hc; rw [hc, hn0] at hfree; cases hfree
  obtain ⟨s', hrun, hlle, htr, htail, hnew, hframe⟩ :=
    add_elem_done env s price volume n0 hn0 ha hne
  refine ⟨s', hrun, ?_, hlle, htr, htail, hnew, hframe⟩
  have hold : ∀ p n, s.heap.read p = some n → p ≠ s.lle.tail → s'.heap.read p = some n := by
    intro p n hp hpt
    rw [hframe p hpt]
    · exact hp
    · intro hc; rw [hc, hfree] at hp; cases hp
  refine ⟨?_, ?_, ?_, ?_, ?_⟩
  · intro L' hL'
    obtain ⟨hseg, _⟩ := hL'
    have hseg' : lseg s'.heap s.lle.head L' s.lle.tail := by
      refine lseg_mono ?_ L' _ _ hseg
      intro p n hp hd
      refine hold p n hp ?_
      intro hc
      rw [hc, hn0] at hp
      cases hp
      rw [hd0] at hd
      cases hd
    have := lseg_snoc htail rfl L' _ hseg'
    unfold WellFormed
    rw [hlle]
    exact ⟨this, _, hnew, rfl, rfl⟩
  · rw [hlle]
  · intro p hp hpt
    cases hr : s.heap.read p with
    | none => exact absurd hr hp
    | some n => exact hold p n hr hpt
  · right; rw [hlle]; exact hfree
  · rw [htr, add_elem_calls_append]; rfl

/-! ## `listener` -/

theorem listener_body_pushed {D : Type} (env : Env D) (hf : Fresh env)
    (data : List (dxf_trade_t D)) (s : State D) (L : List (Record D)) (hwf : WellFormed s L)
    (i : Int) (t : dxf_trade_t D) (hget : data[i.toNat]? = some t) :
    ∃ s', listener_body env data s i = .done s' ∧ Pushed s s' [t.record] := by
  obtain ⟨s1, hrun, hp, hlle, _, _, hnew, _⟩ := add_elem_pushed env hf s L hwf t.price t.size
  have htail : s1.heap.read s1.lle.tail = some ⟨none, none, false, NULL⟩ := by
    rw [hlle]; exact hnew
  refine ⟨_, ?_, (hp.emit_right (.listener_printf_tail none) rfl).emit_right
    (.listener_wprintf_trade t) rfl⟩
  simp only [listener_body, hget, hrun, Outcome.bind, htail]

theorem take_drop_succ {α : Type} (l : List α) (n k : Nat) (t : α) (hget : l[n]? = some t) :
    (l.drop n).take (k + 1) = t :: (l.drop (n + 1)).take k := by
  obtain ⟨hlt, heq⟩ := List.getElem?_eq_some_iff.mp hget
  rw [List.drop_eq_getElem_cons hlt, List.take_succ_cons, heq]

theorem listener_loop_pushed {D : Type} (env : Env D) (hf : Fresh env)
    (data : List (dxf_trade_t D)) (data_count : Int) :
    ∀ (k fuel : Nat) (s : State D) (L : List (Record D)) (i : Int), 0 ≤ i →
      i + k = data_count → i.toNat + k ≤ data.length → k < fuel → WellFormed s L →
      ∃ s', listener_loop env data data_count fuel s i = .done s' ∧
        Pushed s s' (((data.drop i.toNat).take k).map dxf_trade_t.record) := by
  intro k
  induction k with
  | zero =>
    intro fuel s L i _ hik _ hfuel _
    obtain ⟨f, rfl⟩ : ∃ f, fuel = f + 1 := ⟨fuel - 1, by omega⟩
    refine ⟨s, ?_, by simpa using Pushed.refl s⟩
    have : ¬ i < data_count := by omega
    simp [listener_loop, this]
  | succ k ih =>
    intro fuel s L i hi hik hlen hfuel hwf
    obtain ⟨f, rfl⟩ : ∃ f, fuel = f + 1 := ⟨fuel - 1, by omega⟩
    have hlt : i < data_count := by omega
    have hidx : i.toNat < data.length := by omega
    have hget : data[i.toNat]? = some data[i.toNat] := List.getElem?_eq_getElem hidx
    obtain ⟨s1, hrun1, hp1⟩ := listener_body_pushed env hf data s L hwf i _ hget
    have hnext : (i + 1).toNat = i.toNat + 1 := by omega
    obtain ⟨s2, hrun2, hp2⟩ := ih f s1 _ (i + 1) (by omega) (by push_cast at hik ⊢; omega)
      (by omega) (by omega) (hp1.wf L hwf)
    refine ⟨s2, ?_, ?_⟩
    · simp only [listener_loop, hlt, if_true, hrun1, Outcome.bind, hrun2]
    · rw [take_drop_succ data i.toNat k _ hget, List.map_cons]
      rw [hnext] at hp2
      exact hp1.trans hp2

/-- On a well-formed buffer, with enough fuel and an array of at least `data_count` trades,
`listener` returns, having appended the first `data_count` trades. -/
theorem listener_pushed {D : Type} (env : Env D) (hf : Fresh env) (fuel : Nat)
    (c : Call D) (s : State D) (L : List (Record D)) (hwf : WellFormed s L)
    (hlen : c.data_count.toNat ≤ c.data.length) (hfuel : c.data_count.toNat < fuel) :
    ∃ s', listener env fuel c.event_type c.symbol_name c.data c.data_count s = .done s' ∧
      Pushed s s' c.records := by
  unfold listener
  have hpre : ∀ (s' : State D) (rs : List (Record D)),
      Pushed ((s.emit (.listener_wprintf_symbol (env.dx_event_type_to_string c.event_type)
        c.symbol_name)).emit (.listener_printf_count c.data_count)) s' rs → Pushed s s' rs :=
    fun s' rs h => Pushed.emit_left (.listener_wprintf_symbol
      (env.dx_event_type_to_string c.event_type) c.symbol_name) rfl
      (Pushed.emit_left (.listener_printf_count c.data_count) rfl h)
  by_cases hpos : 0 ≤ c.data_count
  · obtain ⟨s', hrun, hp⟩ := listener_loop_pushed env hf c.data c.data_count c.data_count.toNat
      fuel ((s.emit (.listener_wprintf_symbol (env.dx_event_type_to_string c.event_type)
        c.symbol_name)).emit (.listener_printf_count c.data_count)) L 0 (le_refl 0)
      (by simp [Int.toNat_of_nonneg hpos]) (by simpa using hlen) hfuel hwf
    refine ⟨s', hrun, hpre _ _ ?_⟩
    simpa [Call.records] using hp
  · obtain ⟨f, rfl⟩ : ∃ f, fuel = f + 1 := ⟨fuel - 1, by omega⟩
    have hneg : ¬ (0 : Int) < c.data_count := by omega
    have hz : c.data_count.toNat = 0 := by omega
    refine ⟨_, by simp only [listener_loop, hneg, if_false]; rfl, hpre _ _ ?_⟩
    simp only [Call.records, hz, List.take_zero, List.map_nil]
    exact Pushed.refl _

/-! ## `print_list` -/

theorem print_list_loop_done {D : Type} {t : Ptr} :
    ∀ (L : List (Record D)) (fuel : Nat) (s : State D) (p : Ptr) (i : Int),
      lseg s.heap p L t → sentinel s.heap t → L.length < fuel →
      print_list_loop fuel s p i = .done (⟨s.heap, s.lle, s.trace ++ print_events i L⟩, t) := by
  intro L
  induction L with
  | nil =>
    intro fuel s p i hl ht hfuel
    obtain ⟨f, rfl⟩ : ∃ f, fuel = f + 1 := ⟨fuel - 1, by omega⟩
    have hp : p = t := hl
    subst hp
    obtain ⟨n0, hn0, hd0, _⟩ := ht
    have hnn : p ≠ NULL := ne_null_of_read hn0
    simp [print_list_loop, hnn, hn0, hd0, print_events]
  | cons r rs ih =>
    intro fuel s p i hl ht hfuel
    obtain ⟨f, rfl⟩ : ∃ f, fuel = f + 1 := ⟨fuel - 1, by omega⟩
    obtain ⟨n, hn, hd, hrec, hrest⟩ := hl
    have hnn : p ≠ NULL := ne_null_of_read hn
    have := ih f (s.emit (.print_list_printf i n.price n.volume)) n.next (wrap_int (i + 1))
      hrest ht (by simpa using hfuel)
    simp only [print_list_loop, hnn, if_false, hn, hd, if_true, this]
    subst hrec
    simp [State.emit, print_events]

/-! ## `delete_list` -/

theorem walk_unique {D : Type} {h : Heap D} :
    ∀ (as bs : List Ptr) (p : Ptr), walk h p as → walk h p bs → as = bs := by
  intro as
  induction as with
  | nil =>
    intro bs p ha hb
    have hp : p = NULL := ha
    cases bs with
    | nil => rfl
    | cons b bs =>
      obtain ⟨_, n, hn, _⟩ := hb
      exact absurd hp (ne_null_of_read hn)
  | cons a as ih =>
    intro bs p ha hb
    obtain ⟨hap, n, hn, hrest⟩ := ha
    cases bs with
    | nil =>
      have hp : p = NULL := hb
      exact absurd hp (ne_null_of_read hn)
    | cons b bs =>
      obtain ⟨hbp, m, hm, hrest'⟩ := hb
      rw [hn] at hm
      cases hm
      rw [hap, hbp, ih bs _ hrest hrest']

theorem walk_suffix {D : Type} {h : Heap D} (a : Ptr) (l2 : List Ptr) :
    ∀ (l1 : List Ptr) (p : Ptr), walk h p (l1 ++ a :: l2) → walk h a (a :: l2) := by
  intro l1
  induction l1 with
  | nil =>
    intro p hw
    have hap : a = p := hw.1
    rw [hap]
    rw [hap] at hw
    exact hw
  | cons b l1 ih =>
    intro p hw
    obtain ⟨_, n, _, hrest⟩ := hw
    exact ih _ hrest

/-- A walk that ends at `NULL` meets no node twice. -/
theorem walk_nodup {D : Type} {h : Heap D} :
    ∀ (as : List Ptr) (p : Ptr), walk h p as → as.Nodup := by
  intro as
  induction as with
  | nil => intro p _; exact List.nodup_nil
  | cons a as ih =>
    intro p hw
    have hw' := hw
    obtain ⟨hap, n, hn, hrest⟩ := hw
    refine List.nodup_cons.mpr ⟨?_, ih _ hrest⟩
    intro hmem
    obtain ⟨l1, l2, hsplit⟩ := List.append_of_mem hmem
    rw [hsplit] at hrest
    have hsuf := walk_suffix a l2 l1 _ hrest
    rw [hap] at hsuf
    rw [hap] at hw'
    have heq := walk_unique _ _ _ hsuf hw'
    have hlen := congrArg List.length heq
    rw [hsplit] at hlen
    simp at hlen
    omega

theorem walk_free {D : Type} {h : Heap D} (x : Ptr) :
    ∀ (as : List Ptr) (p : Ptr), walk h p as → x ∉ as → walk (h.free x) p as := by
  intro as
  induction as with
  | nil => intro p hw _; exact hw
  | cons a as ih =>
    intro p hw hx
    obtain ⟨hap, n, hn, hrest⟩ := hw
    have hxa : x ≠ a := fun hc => hx (hc ▸ List.mem_cons_self _ _)
    have hxas : x ∉ as := fun hc => hx (List.mem_cons_of_mem _ hc)
    refine ⟨hap, n, ?_, ih _ hrest hxas⟩
    rw [read_free, if_neg (by rw [← hap]; exact hxa)]
    exact hn

/-- The nodes of a well-formed buffer, the sentinel included, form a walk to `NULL`. -/
theorem walk_of_lseg {D : Type} {h : Heap D} {t : Ptr} (ht : sentinel h t) :
    ∀ (L : List (Record D)) (p : Ptr), lseg h p L t →
      ∃ ps : List Ptr, ps.length = L.length ∧ walk h p (ps ++ [t]) := by
  intro L
  induction L with
  | nil =>
    intro p hl
    have hp : p = t := hl
    subst hp
    obtain ⟨n0, hn0, _, hx0⟩ := ht
    exact ⟨[], rfl, rfl, n0, hn0, hx0⟩
  | cons r rs ih =>
    intro p hl
    obtain ⟨n, hn, _, _, hrest⟩ := hl
    obtain ⟨ps, hlen, hw⟩ := ih _ hrest
    exact ⟨p :: ps, by simp [hlen], rfl, n, hn, hw⟩

theorem delete_list_loop_done {D : Type} :
    ∀ (as : List Ptr) (fuel : Nat) (s : State D) (p : Ptr), walk s.heap p as →
      as.length < fuel →
      ∃ s', delete_list_loop fuel s p = .done s' ∧ s'.lle = s.lle ∧
        s'.trace = s.trace ++ as.map Event.free ∧
        (∀ q, q ∈ as → s'.heap.read q = none) ∧
        (∀ q, q ∉ as → s'.heap.read q = s.heap.read q) := by
  intro as
  induction as with
  | nil =>
    intro fuel s p hw hfuel
    obtain ⟨f, rfl⟩ : ∃ f, fuel = f + 1 := ⟨fuel - 1, by omega⟩
    have hp : p = NULL := hw
    refine ⟨s, by simp [delete_list_loop, hp], rfl, by simp, by simp, by simp⟩
  | cons a as ih =>
    intro fuel s p hw hfuel
    obtain ⟨f, rfl⟩ : ∃ f, fuel = f + 1 := ⟨fuel - 1, by omega⟩
    have hnd := walk_nodup _ _ hw
    obtain ⟨hap, n, hn, hrest⟩ := hw
    subst hap
    have hnn : a ≠ NULL := ne_null_of_read hn
    have hna : a ∉ as := (List.nodup_cons.mp hnd).1
    obtain ⟨s', hrun, hlle, htr, hin, hout⟩ :=
      ih f ({ s with heap := s.heap.free a }.emit (.free a)) n.next
        (walk_free a as _ hrest hna) (by simpa using hfuel)
    refine ⟨s', ?_, hlle, ?_, ?_, ?_⟩
    · simp only [delete_list_loop, hnn, if_false, hn, hrun]
    · rw [htr]; simp [State.emit]
    · intro q hq
      rcases List.mem_cons.mp hq with hqa | hqas
      · subst hqa
        rw [hout q hna]
        simp [State.emit, read_free]
      · exact hin q hqas
    · intro q hq
      have hqa : a ≠ q := fun hc => hq (hc ▸ List.mem_cons_self _ _)
      have hqas : q ∉ as := fun hc => hq (List.mem_cons_of_mem _ hc)
      rw [hout q hqas]
      simp [State.emit, read_free, hqa]

/-- On a well-formed buffer `delete_list` returns, having freed every node and made a new
sentinel that is both `head` and `tail`. -/
theorem delete_list_done {D : Type} (env : Env D) (hf : Fresh env) (fuel : Nat) (s : State D)
    (L : List (Record D)) (hwf : WellFormed s L) (hfuel : L.length + 1 < fuel) :
    ∃ (s' : State D) (ps : List Ptr), delete_list env fuel s = .done s' ∧
      ps.length = L.length ∧ walk s.heap s.lle.head (ps ++ [s.lle.tail]) ∧
      s'.trace = s.trace ++ [.delete_list_printf1] ++ (ps ++ [s.lle.tail]).map Event.free ++
        [.delete_list_printf2, .malloc s'.lle.head] ∧
      s'.lle.tail = s'.lle.head ∧
      s'.heap.read s'.lle.head = some ⟨none, none, false, NULL⟩ ∧
      (∀ q, q ∈ ps ++ [s.lle.tail] → q ≠ s'.lle.head → s'.heap.read q = none) ∧
      (∀ q, q ∉ ps ++ [s.lle.tail] → q ≠ s'.lle.head → s'.heap.read q = s.heap.read q) := by
  obtain ⟨ps, hlen, hw⟩ := walk_of_lseg hwf.2 L _ hwf.1
  obtain ⟨s1, hrun, hlle, htr, hin, hout⟩ :=
    delete_list_loop_done (ps ++ [s.lle.tail]) fuel (s.emit .delete_list_printf1) s.lle.head hw
      (by simp [hlen]; omega)
  have ha : env.malloc s1.heap ≠ NULL := (hf s1.heap).1
  have ha' : env.malloc (s1.emit .delete_list_printf2).heap ≠ NULL := ha
  refine ⟨⟨s1.heap.write (env.malloc s1.heap) ⟨none, none, false, NULL⟩,
    ⟨env.malloc s1.heap, env.malloc s1.heap⟩,
    s1.trace ++ [.delete_list_printf2] ++ [.malloc (env.malloc s1.heap)]⟩,
    ps, ?_, hlen, hw, ?_, ?_, ?_, ?_, ?_⟩
  · simp only [delete_list, hrun, Outcome.bind, linked_list_init, ha', if_false]
    rfl
  · simp [State.emit, htr]
  · rfl
  · simp [read_write _ _ _ _ ha]
  · intro q hq hne
    have : env.malloc s1.heap ≠ q := fun hc => hne hc.symm
    simp only [read_write _ _ _ _ ha, this, if_false]
    exact hin q hq
  · intro q hq hne
    have : env.malloc s1.heap ≠ q := fun hc => hne hc.symm
    simp only [read_write _ _ _ _ ha, this, if_false]
    exact hout q hq

/-! ## Sequences of calls, and the allocator `bump` -/

theorem print_list_done {D : Type} (fuel : Nat) (s : State D) (L : List (Record D))
    (hwf : WellFormed s L) (hfuel : L.length < fuel) :
    print_list fuel s = .done ⟨s.heap, s.lle, s.trace ++ print_events 0 L⟩ := by
  unfold print_list
  rw [print_list_loop_done L fuel s _ 0 hwf.1 hwf.2 hfuel]
  rfl

theorem read_back_done {D : Type} (fuel : Nat) (s : State D) (L : List (Record D))
    (hwf : WellFormed s L) (hfuel : L.length < fuel) : read_back fuel s = .done L := by
  have hwf' : WellFormed { s with trace := [] } L := hwf
  unfold read_back
  rw [print_list_done fuel _ L hwf' hfuel]
  simp [Outcome.bind, printed_print_events]

theorem add_elems_pushed {D : Type} (env : Env D) (hf : Fresh env) :
    ∀ (args : List (D × D)) (s : State D) (L : List (Record D)), WellFormed s L →
      ∃ s', add_elems env args s = .done s' ∧
        Pushed s s' (args.map fun a => (some a.1, some a.2)) := by
  intro args
  induction args with
  | nil => intro s L _; exact ⟨s, rfl, Pushed.refl s⟩
  | cons a args ih =>
    intro s L hwf
    obtain ⟨price, volume⟩ := a
    obtain ⟨s1, hrun1, hp1, _⟩ := add_elem_pushed env hf s L hwf price volume
    obtain ⟨s2, hrun2, hp2⟩ := ih s1 _ (hp1.wf L hwf)
    refine ⟨s2, ?_, hp1.trans hp2⟩
    simp only [add_elems, hrun1, Outcome.bind, hrun2]

theorem listeners_pushed {D : Type} (env : Env D) (hf : Fresh env) (fuel : Nat) :
    ∀ (calls : List (Call D)) (s : State D) (L : List (Record D)), WellFormed s L →
      (∀ c ∈ calls, c.data_count.toNat ≤ c.data.length ∧ c.data_count.toNat < fuel) →
      ∃ s', listeners env fuel calls s = .done s' ∧ Pushed s s' (submitted calls) := by
  intro calls
  induction calls with
  | nil => intro s L _ _; exact ⟨s, rfl, Pushed.refl s⟩
  | cons c calls ih =>
    intro s L hwf hc
    obtain ⟨hlen, hfuel⟩ := hc c (List.mem_cons_self _ _)
    obtain ⟨s1, hrun1, hp1⟩ := listener_pushed env hf fuel c s L hwf hlen hfuel
    obtain ⟨s2, hrun2, hp2⟩ := ih s1 _ (hp1.wf L hwf)
      (fun c' hc' => hc c' (List.mem_cons_of_mem _ hc'))
    refine ⟨s2, ?_, hp1.trans hp2⟩
    simp only [listeners, hrun1, Outcome.bind, hrun2]

theorem records_length {D : Type} (c : Call D) (hlen : c.data_count.toNat ≤ c.data.length) :
    ((c.records.length : Nat) : Int) = max c.data_count 0 := by
  simp only [Call.records, List.length_map, List.length_take, Nat.min_eq_left hlen]
  omega

theorem submitted_length {D : Type} :
    ∀ calls : List (Call D), (∀ c ∈ calls, c.data_count.toNat ≤ c.data.length) →
      (((submitted calls).length : Nat) : Int) = submitted_count calls := by
  intro calls
  induction calls with
  | nil => intro _; rfl
  | cons c calls ih =>
    intro hc
    simp only [submitted, submitted_count, List.length_append, Nat.cast_add]
    rw [records_length c (hc c (List.mem_cons_self _ _)),
      ih (fun c' hc' => hc c' (List.mem_cons_of_mem _ hc'))]

theorem lookup_none_of_lt {D : Type} (p : Ptr) :
    ∀ cs : List (Ptr × linked_list D), (cs.map Prod.fst).foldr max 0 < p → lookup cs p = none := by
  intro cs
  induction cs with
  | nil => intro _; rfl
  | cons c cs ih =>
    intro hlt
    obtain ⟨a, n⟩ := c
    simp only [List.map_cons, List.foldr_cons] at hlt
    have h1 : a < p := lt_of_le_of_lt (le_max_left _ _) hlt
    have h2 : (cs.map Prod.fst).foldr max 0 < p := lt_of_le_of_lt (le_max_right _ _) hlt
    simp only [lookup, if_neg (Nat.ne_of_lt h1), ih h2]

/-- The allocator `bump` always succeeds with an unused address. -/
theorem bump_fresh (D : Type) : Fresh (bump_env D) := by
  intro h
  have hb : bump h ≠ NULL := Nat.succ_ne_zero _
  refine ⟨hb, ?_⟩
  show (if bump h = NULL then none else lookup h.cells (bump h)) = none
  rw [if_neg hb]
  exact lookup_none_of_lt _ _ (Nat.lt_succ_self _)

/-- The empty buffer is well formed. -/
theorem empty_state_wf (D : Type) : WellFormed (empty_state D) [] :=
  ⟨rfl, ⟨none, none, false, NULL⟩, rfl, rfl, rfl⟩

/-! ## The buffer does not depend on the trace -/

theorem add_elem_buffer {D : Type} (env : Env D) (s1 s2 : State D) (price volume : D)
    (hh : s1.heap = s2.heap) (hl : s1.lle = s2.lle) :
    (add_elem env s1 price volume).buffer = (add_elem env s2 price volume).buffer := by
  obtain ⟨h1, l1, t1⟩ := s1
  obtain ⟨h2, l2, t2⟩ := s2
  simp only at hh hl
  subst hh hl
  simp only [add_elem, linked_list_init, State.emit, State.store]
  by_cases ha : env.malloc h1 = NULL
  · simp [ha, Outcome.bind, Outcome.buffer]
  · cases hr : (h1.write (env.malloc h1) ⟨none, none, false, NULL⟩).read l1.tail with
    | none => simp [ha, hr, Outcome.bind, Outcome.buffer]
    | some n =>
      have ht : l1.tail ≠ NULL := ne_null_of_read hr
      simp [ha, hr, Outcome.bind, Outcome.buffer, read_write _ _ _ _ ht]

theorem bind_buffer {D : Type} (o1 o2 : Outcome (State D)) (f g : State D → Outcome (State D))
    (ho : o1.buffer = o2.buffer)
    (hfg : ∀ s1 s2 : State D, s1.heap = s2.heap → s1.lle = s2.lle →
      (f s1).buffer = (g s2).buffer) :
    (o1.bind f).buffer = (o2.bind g).buffer := by
  cases o1 with
  | done a =>
    cases o2 with
    | done b =>
      simp only [Outcome.buffer, Outcome.done.injEq, Prod.mk.injEq] at ho
      exact hfg a b ho.1 ho.2
    | fault => cases ho
    | timeout => cases ho
  | fault =>
    cases o2 with
    | done b => cases ho
    | fault => rfl
    | timeout => cases ho
  | timeout =>
    cases o2 with
    | done b => cases ho
    | fault => cases ho
    | timeout => rfl

theorem listener_body_buffer {D : Type} (env : Env D) (data : List (dxf_trade_t D))
    (s1 s2 : State D) (i : Int) (hh : s1.heap = s2.heap) (hl : s1.lle = s2.lle) :
    (listener_body env data s1 i).buffer = (listener_body env data s2 i).buffer := by
  unfold listener_body
  cases data[i.toNat]? with
  | none => rfl
  | some t =>
    refine bind_buffer _ _ _ _ (add_elem_buffer env s1 s2 t.price t.size hh hl) ?_
    intro a b hab hab'
    rw [hab, hab']
    cases b.heap.read b.lle.tail with
    | none => rfl
    | some n => simp only [Outcome.buffer, State.emit, hab, hab']

theorem listener_loop_buffer {D : Type} (env : Env D) (data : List (dxf_trade_t D))
    (data_count : Int) :
    ∀ (fuel : Nat) (s1 s2 : State D) (i : Int), s1.heap = s2.heap → s1.lle = s2.lle →
      (listener_loop env data data_count fuel s1 i).buffer =
        (listener_loop env data data_count fuel s2 i).buffer := by
  intro fuel
  induction fuel with
  | zero => intro s1 s2 i _ _; rfl
  | succ f ih =>
    intro s1 s2 i hh hl
    simp only [listener_loop]
    by_cases hlt : i < data_count
    · simp only [hlt, if_true]
      exact bind_buffer _ _ _ _ (listener_body_buffer env data s1 s2 i hh hl)
        (fun a b hab hab' => ih a b (i + 1) hab hab')
    · simp only [hlt, if_false, Outcome.buffer, hh, hl]

theorem lseg_of_frame {D : Type} {s s' : State D} {L : List (Record D)} (hwf : WellFormed s L)
    (hframe : ∀ p, s.heap.read p ≠ none → p ≠ s.lle.tail → s'.heap.read p = s.heap.read p) :
    lseg s'.heap s.lle.head L s.lle.tail := by
  obtain ⟨hseg, n0, hn0, hd0, _⟩ := hwf
  refine lseg_mono ?_ L _ _ hseg
  intro p n hp hd
  rw [hframe p (by rw [hp]; exact Option.some_ne_none n) ?_]
  · exact hp
  · intro hc
    rw [hc, hn0] at hp
    cases hp
    rw [hd0] at hd
    cases hd

theorem submitted_replicate {D : Type} (c : Call D) :
    ∀ N : Nat, (submitted (List.replicate N c)).length = N * c.records.length := by
  intro N
  induction N with
  | zero => simp [submitted]
  | succ N ih =>
    simp only [List.replicate_succ, submitted, List.length_append, ih]
    ring

/-! ## The properties of the specification -/

/-- C1: on a well-formed buffer that stores `L`, with an allocator that succeeds, `listener`
called with a batch `trades` and `data_count` equal to its length returns and leaves a
well-formed buffer that stores `L` followed by the `(price, size)` records of the batch in index
order, and reading that buffer from `head` with `print_list` gives exactly these records; with
`data_count ≤ 0` the buffer still stores `L`. -/
theorem C1_listener_appends_batch {D : Type} (env : Env D) (hf : Fresh env) (s : State D)
    (L : List (Record D)) (hwf : WellFormed s L) (event_type : Int) (symbol_name : String)
    (trades : List (dxf_trade_t D)) (fuel : Nat) :
    (trades.length < fuel →
      ∃ s', listener env fuel event_type symbol_name trades (trades.length : Int) s = .done s' ∧
        WellFormed s' (L ++ trades.map dxf_trade_t.record) ∧
        ∀ fuel', L.length + trades.length < fuel' →
          read_back fuel' s' = .done (L ++ trades.map dxf_trade_t.record)) ∧
    (∀ data_count : Int, data_count ≤ 0 → 0 < fuel →
      ∃ s', listener env fuel event_type symbol_name trades data_count s = .done s' ∧
        WellFormed s' L ∧ ∀ fuel', L.length < fuel' → read_back fuel' s' = .done L) := by
  constructor
  · intro hfuel
    obtain ⟨s', hrun, hp⟩ := listener_pushed env hf fuel
      ⟨event_type, symbol_name, trades, (trades.length : Int)⟩ s L hwf (by simp) (by simpa using hfuel)
    have hrec : Call.records ⟨event_type, symbol_name, trades, (trades.length : Int)⟩ =
        trades.map dxf_trade_t.record := by simp [Call.records]
    rw [hrec] at hp
    refine ⟨s', hrun, hp.wf L hwf, ?_⟩
    intro fuel' hfuel'
    exact read_back_done fuel' s' _ (hp.wf L hwf) (by simpa using hfuel')
  · intro data_count hdc hfuel
    have hz : data_count.toNat = 0 := by omega
    obtain ⟨s', hrun, hp⟩ := listener_pushed env hf fuel
      ⟨event_type, symbol_name, trades, data_count⟩ s L hwf (by simp [hz]) (by simpa [hz] using hfuel)
    have hrec : Call.records ⟨event_type, symbol_name, trades, data_count⟩ = [] := by
      simp [Call.records, hz]
    rw [hrec] at hp
    have hwf' : WellFormed s' L := by simpa using hp.wf L hwf
    exact ⟨s', hrun, hwf', fun fuel' hfuel' => read_back_done fuel' s' L hwf' hfuel'⟩

/-- Witness of C1: a batch of two trades pushed into the empty buffer is read back unchanged. -/
theorem C1_listener_appends_batch_witness :
    ∃ s', listener (bump_env Nat) 3 0 "AAPL" [trade 10 1, trade 20 2] 2 (empty_state Nat)
        = .done s' ∧
      read_back 3 s' = .done [(some 10, some 1), (some 20, some 2)] := by
  obtain ⟨s', h1, _, h3⟩ := (C1_listener_appends_batch (bump_env Nat) (bump_fresh Nat)
    (empty_state Nat) [] (empty_state_wf Nat) 0 "AAPL" [trade 10 1, trade 20 2] 3).1 (by decide)
  exact ⟨s', h1, h3 3 (by decide)⟩

/-- C2: on a well-formed buffer that stores `L`, any sequence of `add_elem` calls returns and
leaves a well-formed buffer; the walk from `head` up to the first node with `data = false`
meets `L` followed by the `(price, volume)` arguments of the calls in call order, and nothing
else. -/
theorem C2_add_elem_arrival_order {D : Type} (env : Env D) (hf : Fresh env) (s : State D)
    (L : List (Record D)) (hwf : WellFormed s L) (args : List (D × D)) :
    ∃ s', add_elems env args s = .done s' ∧
      WellFormed s' (L ++ args.map fun a => (some a.1, some a.2)) ∧
      ∀ fuel, L.length + args.length < fuel →
        read_back fuel s' = .done (L ++ args.map fun a => (some a.1, some a.2)) ∧
        ∀ i, ∃ s'', print_list_loop fuel s' s'.lle.head i = .done (s'', s'.lle.tail) := by
  obtain ⟨s', hrun, hp⟩ := add_elems_pushed env hf args s L hwf
  have hwf' := hp.wf L hwf
  refine ⟨s', hrun, hwf', ?_⟩
  intro fuel hfuel
  have hlen : (L ++ args.map fun a => (some a.1, some a.2)).length < fuel := by
    simpa using hfuel
  exact ⟨read_back_done fuel s' _ hwf' hlen,
    fun i => ⟨_, print_list_loop_done _ fuel s' _ i hwf'.1 hwf'.2 hlen⟩⟩

/-- Witness of C2: three calls on the empty buffer. -/
theorem C2_add_elem_arrival_order_witness :
    ∃ s', add_elems (bump_env Nat) [(10, 1), (20, 2), (10, 1)] (empty_state Nat) = .done s' ∧
      read_back 4 s' = .done [(some 10, some 1), (some 20, some 2), (some 10, some 1)] := by
  obtain ⟨s', h1, _, h3⟩ := C2_add_elem_arrival_order (bump_env Nat) (bump_fresh Nat)
    (empty_state Nat) [] (empty_state_wf Nat) [(10, 1), (20, 2), (10, 1)]
  exact ⟨s', h1, (h3 4 (by decide)).1⟩

/-- C3: after any sequence of `listener` calls on an empty buffer, each with an array of at
least `data_count` trades, the buffer stores exactly the submitted records, so its length is
the sum of the non-negative `data_count` values and no record is dropped; the length can
exceed any bound. -/
theorem C3_conservation {D : Type} (env : Env D) (hf : Fresh env) (s : State D)
    (hwf : WellFormed s []) :
    (∀ (fuel : Nat) (calls : List (Call D)),
      (∀ c ∈ calls, c.data_count.toNat ≤ c.data.length ∧ c.data_count.toNat < fuel) →
      ∃ s', listeners env fuel calls s = .done s' ∧ WellFormed s' (submitted calls) ∧
        (((submitted calls).length : Nat) : Int) = submitted_count calls ∧
        ∀ L', WellFormed s' L' → ((L'.length : Nat) : Int) = submitted_count calls) ∧
    (∀ (t : dxf_trade_t D) (N : Nat), ∃ (s' : State D) (L' : List (Record D)),
      listeners env 2 (List.replicate N ⟨0, "", [t], 1⟩) s = .done s' ∧ WellFormed s' L' ∧
        L'.length = N) := by
  constructor
  · intro fuel calls hc
    obtain ⟨s', hrun, hp⟩ := listeners_pushed env hf fuel calls s [] hwf hc
    have hwf' : WellFormed s' (submitted calls) := by simpa using hp.wf [] hwf
    have hlen := submitted_length calls (fun c hcm => (hc c hcm).1)
    refine ⟨s', hrun, hwf', hlen, ?_⟩
    intro L' hL'
    rw [hL'.unique hwf', hlen]
  · intro t N
    have hc : ∀ c ∈ List.replicate N (⟨0, "", [t], 1⟩ : Call D),
        c.data_count.toNat ≤ c.data.length ∧ c.data_count.toNat < 2 := by
      intro c hcm
      rw [List.eq_of_mem_replicate hcm]
      exact ⟨by simp, by simp⟩
    obtain ⟨s', hrun, hp⟩ := listeners_pushed env hf 2 _ s [] hwf hc
    refine ⟨s', _, hrun, hp.wf [] hwf, ?_⟩
    rw [List.nil_append, submitted_replicate]
    simp [Call.records]

/-- Witness of C3: calls with `data_count` 2, -1 and 1 leave three records. -/
theorem C3_conservation_witness :
    ∃ s', listeners (bump_env Nat) 3
        [⟨0, "A", [trade 10 1, trade 20 2], 2⟩, ⟨0, "A", [trade 30 3], -1⟩,
          ⟨1, "B", [trade 40 4], 1⟩] (empty_state Nat) = .done s' ∧
      WellFormed s' [(some 10, some 1), (some 20, some 2), (some 40, some 4)] := by
  obtain ⟨s', h1, h2, _⟩ := (C3_conservation (bump_env Nat) (bump_fresh Nat) (empty_state Nat)
    (empty_state_wf Nat)).1 3
    [⟨0, "A", [trade 10 1, trade 20 2], 2⟩, ⟨0, "A", [trade 30 3], -1⟩, ⟨1, "B", [trade 40 4], 1⟩]
    (by decide)
  exact ⟨s', h1, h2⟩

/-- C4, counterexample: two batches of 2 records pushed into the empty buffer leave 4 records,
one more than a capacity of 3 would allow; the second push stores both of its records. -/
theorem C4_capacity_counterexample :
    ((listeners (bump_env Nat) 3
        [⟨0, "A", [trade 10 1, trade 20 2], 2⟩, ⟨0, "A", [trade 30 3, trade 40 4], 2⟩]
        (empty_state Nat)).bind (read_back 5)
      = .done [(some 10, some 1), (some 20, some 2), (some 30, some 3), (some 40, some 4)]) ∧
    ¬ [(some 10, some 1), (some 20, some 2), (some 30, some 3), (some 40, some 4)].length ≤ 3 :=
  ⟨rfl, by decide⟩

/-- C4, amended: the buffer has no maximum capacity and no reject-tail policy. On a well-formed
buffer that stores `L`, whatever its length, `listener` stores every record of the batch, so
the length after the push is the length before plus `max data_count 0` and nothing is dropped;
for every capacity `cap` a sequence of pushes leaves more than `cap` records; and two batches of
2 records pushed one after the other are stored whole, 2 more records after the first push and
4 more after the second. -/
theorem C4_no_capacity {D : Type} (env : Env D) (hf : Fresh env) (s : State D)
    (L : List (Record D)) (hwf : WellFormed s L) :
    (∀ (fuel : Nat) (c : Call D), c.data_count.toNat ≤ c.data.length →
      c.data_count.toNat < fuel →
      ∃ s', listener env fuel c.event_type c.symbol_name c.data c.data_count s = .done s' ∧
        WellFormed s' (L ++ c.records) ∧
        ∀ L', WellFormed s' L' →
          ((L'.length : Nat) : Int) = (L.length : Nat) + max c.data_count 0) ∧
    (∀ (cap : Nat) (t : dxf_trade_t D), ∃ (s' : State D) (L' : List (Record D)),
      listeners env 2 (List.replicate (cap + 1) ⟨0, "", [t], 1⟩) s = .done s' ∧
        WellFormed s' L' ∧ (∀ L'', WellFormed s' L'' → cap < L''.length)) ∧
    (∀ c1 c2 : Call D, c1.data_count = 2 → c2.data_count = 2 → c1.data.length = 2 →
      c2.data.length = 2 →
      ∃ s1 s2, listener env 3 c1.event_type c1.symbol_name c1.data c1.data_count s = .done s1 ∧
        listener env 3 c2.event_type c2.symbol_name c2.data c2.data_count s1 = .done s2 ∧
        WellFormed s1 (L ++ c1.data.map dxf_trade_t.record) ∧
        WellFormed s2
          (L ++ c1.data.map dxf_trade_t.record ++ c2.data.map dxf_trade_t.record) ∧
        (∀ L', WellFormed s1 L' → L'.length = L.length + 2) ∧
        (∀ L', WellFormed s2 L' → L'.length = L.length + 4)) := by
  refine ⟨?_, ?_, ?_⟩
  · intro fuel c hlen hfuel
    obtain ⟨s', hrun, hp⟩ := listener_pushed env hf fuel c s L hwf hlen hfuel
    have hwf' := hp.wf L hwf
    refine ⟨s', hrun, hwf', ?_⟩
    intro L' hL'
    rw [hL'.unique hwf', List.length_append, Nat.cast_add, records_length c hlen]
  · intro cap t
    have hc : ∀ c ∈ List.replicate (cap + 1) (⟨0, "", [t], 1⟩ : Call D),
        c.data_count.toNat ≤ c.data.length ∧ c.data_count.toNat < 2 := by
      intro c hcm
      rw [List.eq_of_mem_replicate hcm]
      exact ⟨by simp, by simp⟩
    obtain ⟨s', hrun, hp⟩ := listeners_pushed env hf 2 _ s L hwf hc
    have hwf' := hp.wf L hwf
    refine ⟨s', _, hrun, hwf', ?_⟩
    intro L'' hL''
    rw [hL''.unique hwf', List.length_append, submitted_replicate]
    simp [Call.records]
    omega
  · intro c1 c2 h1 h2 hlen1 hlen2
    have hr1 : c1.records = c1.data.map dxf_trade_t.record := by
      simp [Call.records, h1, ← hlen1]
    have hr2 : c2.records = c2.data.map dxf_trade_t.record := by
      simp [Call.records, h2, ← hlen2]
    obtain ⟨s1, hrun1, hp1⟩ := listener_pushed env hf 3 c1 s L hwf
      (by rw [h1, hlen1]; decide) (by rw [h1]; decide)
    have hwf1 := hp1.wf L hwf
    obtain ⟨s2, hrun2, hp2⟩ := listener_pushed env hf 3 c2 s1 _ hwf1
      (by rw [h2, hlen2]; decide) (by rw [h2]; decide)
    have hwf2 := hp2.wf _ hwf1
    rw [hr1] at hwf1 hwf2
    rw [hr2] at hwf2
    refine ⟨s1, s2, hrun1, hrun2, hwf1, hwf2, ?_, ?_⟩
    · intro L' hL'
      rw [hL'.unique hwf1]
      simp [hlen1]
    · intro L' hL'
      rw [hL'.unique hwf2]
      simp [hlen1, hlen2]

/-- Witness of the amended C4: batches of 2 and 2 pushed into the empty buffer leave a buffer
whose stored sequence has length 4. -/
theorem C4_no_capacity_witness :
    ∃ s1 s2, listener (bump_env Nat) 3 0 "A" [trade 10 1, trade 20 2] 2 (empty_state Nat)
        = .done s1 ∧
      listener (bump_env Nat) 3 0 "A" [trade 30 3, trade 40 4] 2 s1 = .done s2 ∧
      WellFormed s2 ([] ++ [trade 10 1, trade 20 2].map dxf_trade_t.record ++
        [trade 30 3, trade 40 4].map dxf_trade_t.record) ∧
      ∀ L', WellFormed s2 L' → L'.length = 4 := by
  obtain ⟨s1, s2, h1, h2, _, h4, _, h6⟩ := (C4_no_capacity (bump_env Nat) (bump_fresh Nat)
    (empty_state Nat) [] (empty_state_wf Nat)).2.2 ⟨0, "A", [trade 10 1, trade 20 2], 2⟩
    ⟨0, "A", [trade 30 3, trade 40 4], 2⟩ rfl rfl rfl rfl
  exact ⟨s1, s2, h1, h2, h4, h6⟩

/-- C5: on a well-formed buffer `add_elem` returns with `head` unchanged and with every cell
that was allocated before the call, other than the former tail sentinel, unchanged in all its
fields; the only cells that differ after the call are the former tail and the cell newly
allocated for the new sentinel, so the records stored before are still stored, node for node.
The same holds for `listener`. -/
theorem C5_stored_records_immutable {D : Type} (env : Env D) (hf : Fresh env) (s : State D)
    (L : List (Record D)) (hwf : WellFormed s L) :
    (∀ price volume : D, ∃ s', add_elem env s price volume = .done s' ∧
      s'.lle.head = s.lle.head ∧
      (∀ p, s.heap.read p ≠ none → p ≠ s.lle.tail → s'.heap.read p = s.heap.read p) ∧
      (∀ p, s'.heap.read p ≠ s.heap.read p →
        p = s.lle.tail ∨ (p = s'.lle.tail ∧ s.heap.read p = none)) ∧
      s'.heap.read s.lle.tail = some ⟨some price, some volume, true, s'.lle.tail⟩ ∧
      lseg s'.heap s.lle.head L s.lle.tail) ∧
    (∀ (fuel : Nat) (c : Call D), c.data_count.toNat ≤ c.data.length →
      c.data_count.toNat < fuel →
      ∃ s', listener env fuel c.event_type c.symbol_name c.data c.data_count s = .done s' ∧
        s'.lle.head = s.lle.head ∧
        (∀ p, s.heap.read p ≠ none → p ≠ s.lle.tail → s'.heap.read p = s.heap.read p) ∧
        lseg s'.heap s.lle.head L s.lle.tail) := by
  constructor
  · intro price volume
    obtain ⟨s', hrun, hp, hlle, _, htail, _, hframe⟩ :=
      add_elem_pushed env hf s L hwf price volume
    have hnew : s'.lle.tail = env.malloc s.heap := by rw [hlle]
    refine ⟨s', hrun, hp.head, hp.frame, ?_, by rw [hnew]; exact htail,
      lseg_of_frame hwf hp.frame⟩
    intro p hchg
    by_cases hpt : p = s.lle.tail
    · exact Or.inl hpt
    · right
      have hpa : p = env.malloc s.heap := by
        by_contra hc
        exact hchg (hframe p hpt hc)
      exact ⟨by rw [hnew]; exact hpa, by rw [hpa]; exact (hf s.heap).2⟩
  · intro fuel c hlen hfuel
    obtain ⟨s', hrun, hp⟩ := listener_pushed env hf fuel c s L hwf hlen hfuel
    exact ⟨s', hrun, hp.head, hp.frame, lseg_of_frame hwf hp.frame⟩

/-- Witness of C5: `add_elem` on a buffer that stores one record leaves the first node as it
was. -/
theorem C5_stored_records_immutable_witness :
    ∃ s', add_elem (bump_env Nat)
        ⟨⟨[(1, ⟨some 10, some 1, true, 2⟩), (2, ⟨none, none, false, NULL⟩)]⟩, ⟨1, 2⟩, []⟩ 20 2
        = .done s' ∧
      s'.lle.head = 1 ∧ s'.heap.read 1 = some ⟨some 10, some 1, true, 2⟩ := by
  obtain ⟨s', h1, h2, h3, _⟩ := (C5_stored_records_immutable (bump_env Nat) (bump_fresh Nat)
    ⟨⟨[(1, ⟨some 10, some 1, true, 2⟩), (2, ⟨none, none, false, NULL⟩)]⟩, ⟨1, 2⟩, []⟩
    [(some 10, some 1)] (by decide)).1 20 2
  exact ⟨s', h1, h2, h3 1 (by simp [Heap.read, lookup]) (by decide)⟩

/-- C6: on a well-formed buffer that stores `L`, with enough fuel, `listener` returns after
exactly `max data_count 0` calls of `add_elem`; `print_list` returns after one `printf` per
stored record, in order, and nothing else; `delete_list` returns after one `free` per node on
the walk from `head` to `NULL`, which are the `L.length` record nodes followed by the
sentinel. -/
theorem C6_termination {D : Type} (env : Env D) (hf : Fresh env) (s : State D)
    (L : List (Record D)) (hwf : WellFormed s L) :
    (∀ (fuel : Nat) (c : Call D), c.data_count.toNat ≤ c.data.length →
      (max c.data_count 0).toNat < fuel →
      ∃ s', listener env fuel c.event_type c.symbol_name c.data c.data_count s = .done s' ∧
        add_elem_calls s'.trace = add_elem_calls s.trace + (max c.data_count 0).toNat) ∧
    (∀ fuel : Nat, L.length < fuel →
      ∃ s', print_list fuel s = .done s' ∧ s'.trace = s.trace ++ print_events 0 L ∧
        (print_events 0 L).length = L.length ∧ printed (print_events 0 L) = L) ∧
    (∀ fuel : Nat, L.length + 1 < fuel →
      ∃ (s' : State D) (ps : List Ptr), delete_list env fuel s = .done s' ∧
        ps.length = L.length ∧ walk s.heap s.lle.head (ps ++ [s.lle.tail]) ∧
        freed s'.trace = freed s.trace ++ (ps ++ [s.lle.tail])) := by
  refine ⟨?_, ?_, ?_⟩
  · intro fuel c hlen hfuel
    have hmax : (max c.data_count 0).toNat = c.data_count.toNat := by omega
    rw [hmax] at hfuel ⊢
    obtain ⟨s', hrun, hp⟩ := listener_pushed env hf fuel c s L hwf hlen hfuel
    refine ⟨s', hrun, ?_⟩
    rw [hp.calls]
    simp [Call.records, Nat.min_eq_left hlen]
  · intro fuel hfuel
    exact ⟨_, print_list_done fuel s L hwf hfuel, rfl, print_events_length L 0,
      printed_print_events L 0⟩
  · intro fuel hfuel
    obtain ⟨s', ps, hrun, hlen, hw, htr, _⟩ := delete_list_done env hf fuel s L hwf hfuel
    refine ⟨s', ps, hrun, hlen, hw, ?_⟩
    rw [htr]
    have hfm : ∀ as : List Ptr, freed (as.map (Event.free : Ptr → Event D)) = as := by
      intro as
      induction as with
      | nil => rfl
      | cons a as ih => simp [freed, ih]
    simp only [freed_append, hfm]
    simp [freed]

/-- Witness of C6: `listener` with `data_count = 2` on the empty buffer calls `add_elem`
twice. -/
theorem C6_termination_witness :
    ∃ s', listener (bump_env Nat) 3 0 "A" [trade 10 1, trade 20 2] 2 (empty_state Nat)
        = .done s' ∧
      add_elem_calls s'.trace = 2 := by
  obtain ⟨s', h1, h2⟩ := (C6_termination (bump_env Nat) (bump_fresh Nat) (empty_state Nat) []
    (empty_state_wf Nat)).1 3 ⟨0, "A", [trade 10 1, trade 20 2], 2⟩ (by decide) (by decide)
  exact ⟨s', h1, h2⟩

/-- C7, counterexample: two invocations of `listener` at work on the empty buffer, with the
batches `[(10, 1), (20, 2)]` and `[(30, 3), (40, 4)]`, that take turns at their loop passes both
run to their end and leave the records interleaved: neither batch followed by the other. -/
theorem C7_interleaving_counterexample :
    ((interleave (bump_env Nat) [false, true, false, true] (empty_state Nat)
        ⟨[trade 10 1, trade 20 2], 2, 0⟩ ⟨[trade 30 3, trade 40 4], 2, 0⟩).bind
        fun r => (read_back 5 r.1).bind fun L => .done (L, r.2.1.i, r.2.2.i))
      = .done ([(some 10, some 1), (some 30, some 3), (some 20, some 2), (some 40, some 4)],
          2, 2) ∧
    [(some 10, some 1), (some 30, some 3), (some 20, some 2), (some 40, some 4)] ≠
      [trade 10 1, trade 20 2].map dxf_trade_t.record ++
        [trade 30 3, trade 40 4].map dxf_trade_t.record ∧
    [(some 10, some 1), (some 30, some 3), (some 20, some 2), (some 40, some 4)] ≠
      [trade 30 3, trade 40 4].map dxf_trade_t.record ++
        [trade 10 1, trade 20 2].map dxf_trade_t.record :=
  ⟨rfl, by decide, by decide⟩

/-- C7, amended: when two invocations of `listener` run one after the other on a well-formed
buffer that stores `L`, the second starting after the first has returned, the buffer then
stores `L`, the first batch in its entirety and the second batch in its entirety, in this
order. -/
theorem C7_sequential_batches {D : Type} (env : Env D) (hf : Fresh env) (s : State D)
    (L : List (Record D)) (hwf : WellFormed s L) (fuel : Nat) (c1 c2 : Call D)
    (hlen1 : c1.data_count.toNat ≤ c1.data.length) (hfuel1 : c1.data_count.toNat < fuel)
    (hlen2 : c2.data_count.toNat ≤ c2.data.length) (hfuel2 : c2.data_count.toNat < fuel) :
    ∃ s1 s2, listener env fuel c1.event_type c1.symbol_name c1.data c1.data_count s = .done s1 ∧
      listener env fuel c2.event_type c2.symbol_name c2.data c2.data_count s1 = .done s2 ∧
      WellFormed s2 (L ++ c1.records ++ c2.records) := by
  obtain ⟨s1, hrun1, hp1⟩ := listener_pushed env hf fuel c1 s L hwf hlen1 hfuel1
  obtain ⟨s2, hrun2, hp2⟩ := listener_pushed env hf fuel c2 s1 _ (hp1.wf L hwf) hlen2 hfuel2
  exact ⟨s1, s2, hrun1, hrun2, hp2.wf _ (hp1.wf L hwf)⟩

/-- Witness of the amended C7. -/
theorem C7_sequential_batches_witness :
    ∃ s1 s2, listener (bump_env Nat) 3 0 "A" [trade 10 1, trade 20 2] 2 (empty_state Nat)
        = .done s1 ∧
      listener (bump_env Nat) 3 1 "B" [trade 30 3, trade 40 4] 2 s1 = .done s2 ∧
      read_back 5 s2 =
        .done [(some 10, some 1), (some 20, some 2), (some 30, some 3), (some 40, some 4)] := by
  obtain ⟨s1, s2, h1, h2, h3⟩ := C7_sequential_batches (bump_env Nat) (bump_fresh Nat)
    (empty_state Nat) [] (empty_state_wf Nat) 3 ⟨0, "A", [trade 10 1, trade 20 2], 2⟩
    ⟨1, "B", [trade 30 3, trade 40 4], 2⟩ (by decide) (by decide) (by decide) (by decide)
  exact ⟨s1, s2, h1, h2, read_back_done 5 s2 _ h3 (by decide)⟩

/-- C8: the sentinel invariant (the buffer is well formed) holds after every `delete_list`
that returns, and `delete_list` returns on a well-formed buffer; the invariant is preserved by
`add_elem`, by `listener` and by `print_list`, which leaves node memory and the header as they
are; and the loop of `print_list`, started at `head`, stops with `curr` equal to `tail`. -/
theorem C8_sentinel_invariant {D : Type} (env : Env D) (hf : Fresh env) (s : State D)
    (L : List (Record D)) (hwf : WellFormed s L) :
    (∀ (fuel : Nat) (s0 s' : State D), delete_list env fuel s0 = .done s' → WellFormed s' []) ∧
    (∀ fuel : Nat, L.length + 1 < fuel →
      ∃ s', delete_list env fuel s = .done s' ∧ WellFormed s' []) ∧
    (∀ price volume : D, ∃ s', add_elem env s price volume = .done s' ∧
      WellFormed s' (L ++ [(some price, some volume)])) ∧
    (∀ (fuel : Nat) (c : Call D), c.data_count.toNat ≤ c.data.length →
      c.data_count.toNat < fuel →
      ∃ s', listener env fuel c.event_type c.symbol_name c.data c.data_count s = .done s' ∧
        WellFormed s' (L ++ c.records)) ∧
    (∀ fuel : Nat, L.length < fuel →
      ∃ s', print_list fuel s = .done s' ∧ WellFormed s' L ∧ s'.heap = s.heap ∧
        s'.lle = s.lle) ∧
    (∀ (fuel : Nat) (i : Int), L.length < fuel →
      ∃ s', print_list_loop fuel s s.lle.head i = .done (s', s.lle.tail)) := by
  refine ⟨?_, ?_, ?_, ?_, ?_, ?_⟩
  · intro fuel s0 s' hrun
    unfold delete_list at hrun
    cases hloop : delete_list_loop fuel (s0.emit .delete_list_printf1) s0.lle.head with
    | fault => rw [hloop] at hrun; cases hrun
    | timeout => rw [hloop] at hrun; cases hrun
    | done s1 =>
      have ha : env.malloc (s1.emit .delete_list_printf2).heap ≠ NULL := (hf s1.heap).1
      rw [hloop] at hrun
      simp only [Outcome.bind, linked_list_init, ha, if_false, Outcome.done.injEq] at hrun
      subst hrun
      have hr : (s1.heap.write (env.malloc s1.heap) ⟨none, none, false, NULL⟩).read
          (env.malloc s1.heap) = some ⟨none, none, false, NULL⟩ := by
        rw [read_write _ _ _ _ (hf s1.heap).1, if_pos rfl]
      exact ⟨rfl, _, hr, rfl, rfl⟩
  · intro fuel hfuel
    obtain ⟨s', ps, hrun, _, _, _, htail, hread, _⟩ := delete_list_done env hf fuel s L hwf hfuel
    refine ⟨s', hrun, htail.symm, ⟨none, none, false, NULL⟩, ?_, rfl, rfl⟩
    rw [htail]
    exact hread
  · intro price volume
    obtain ⟨s', hrun, hp, _⟩ := add_elem_pushed env hf s L hwf price volume
    exact ⟨s', hrun, hp.wf L hwf⟩
  · intro fuel c hlen hfuel
    obtain ⟨s', hrun, hp⟩ := listener_pushed env hf fuel c s L hwf hlen hfuel
    exact ⟨s', hrun, hp.wf L hwf⟩
  · intro fuel hfuel
    exact ⟨_, print_list_done fuel s L hwf hfuel, hwf, rfl, rfl⟩
  · intro fuel i hfuel
    exact ⟨_, print_list_loop_done L fuel s _ i hwf.1 hwf.2 hfuel⟩

/-- Witness of C8: `delete_list` on a buffer that stores one record leaves an empty
well-formed buffer. -/
theorem C8_sentinel_invariant_witness :
    ∃ s', delete_list (bump_env Nat) 3
        ⟨⟨[(1, ⟨some 10, some 1, true, 2⟩), (2, ⟨none, none, false, NULL⟩)]⟩, ⟨1, 2⟩, []⟩
        = .done s' ∧
      WellFormed s' [] := by
  obtain ⟨s', h1, h2⟩ := (C8_sentinel_invariant (bump_env Nat) (bump_fresh Nat)
    ⟨⟨[(1, ⟨some 10, some 1, true, 2⟩), (2, ⟨none, none, false, NULL⟩)]⟩, ⟨1, 2⟩, []⟩
    [(some 10, some 1)] (by decide)).2.1 3 (by decide)
  exact ⟨s', h1, h2⟩

/-- C9: on a well-formed buffer, whatever it stores, `delete_list` returns with `head` and
`tail` both equal to the address that its final `malloc` returned, where the cell is a newly
initialised sentinel (`data = false`, `next = NULL`); the buffer is well formed and stores the
empty sequence; and any following sequence of `add_elem` calls leaves exactly the records of
those calls, in order. -/
theorem C9_delete_list_resets {D : Type} (env : Env D) (hf : Fresh env) (s : State D)
    (L : List (Record D)) (hwf : WellFormed s L) (fuel : Nat) (hfuel : L.length + 1 < fuel) :
    ∃ s', delete_list env fuel s = .done s' ∧
      s'.lle.tail = s'.lle.head ∧
      s'.heap.read s'.lle.head = some ⟨none, none, false, NULL⟩ ∧
      (∃ tr, s'.trace = tr ++ [.malloc s'.lle.head]) ∧
      WellFormed s' [] ∧
      (∀ fuel', 0 < fuel' → read_back fuel' s' = .done []) ∧
      ∀ args : List (D × D), ∃ s'', add_elems env args s' = .done s'' ∧
        WellFormed s'' (args.map fun a => (some a.1, some a.2)) ∧
        ∀ fuel', args.length < fuel' →
          read_back fuel' s'' = .done (args.map fun a => (some a.1, some a.2)) := by
  obtain ⟨s', ps, hrun, _, _, htr, htail, hread, _⟩ := delete_list_done env hf fuel s L hwf hfuel
  have hwf' : WellFormed s' [] :=
    ⟨htail.symm, ⟨none, none, false, NULL⟩, by rw [htail]; exact hread, rfl, rfl⟩
  have htr' : s'.trace = (s.trace ++ [.delete_list_printf1] ++
      (ps ++ [s.lle.tail]).map Event.free ++ [.delete_list_printf2]) ++
      [.malloc s'.lle.head] := by
    rw [htr]; simp
  refine ⟨s', hrun, htail, hread, ⟨_, htr'⟩, hwf',
    fun fuel' hfuel' => read_back_done fuel' s' [] hwf' hfuel', ?_⟩
  intro args
  obtain ⟨s'', hrun', hp⟩ := add_elems_pushed env hf args s' [] hwf'
  have hwf'' : WellFormed s'' (args.map fun a => (some a.1, some a.2)) := by
    simpa using hp.wf [] hwf'
  exact ⟨s'', hrun', hwf'', fun fuel' hfuel' =>
    read_back_done fuel' s'' _ hwf'' (by simpa using hfuel')⟩

/-- Witness of C9: `delete_list` on a buffer that stores one record, then two calls of
`add_elem`. -/
theorem C9_delete_list_resets_witness :
    ∃ s', delete_list (bump_env Nat) 3
        ⟨⟨[(1, ⟨some 10, some 1, true, 2⟩), (2, ⟨none, none, false, NULL⟩)]⟩, ⟨1, 2⟩, []⟩
        = .done s' ∧
      read_back 1 s' = .done [] ∧
      ∃ s'', add_elems (bump_env Nat) [(30, 3), (40, 4)] s' = .done s'' ∧
        read_back 3 s'' = .done [(some 30, some 3), (some 40, some 4)] := by
  obtain ⟨s', h1, _, _, _, _, h2, h3⟩ := C9_delete_list_resets (bump_env Nat) (bump_fresh Nat)
    ⟨⟨[(1, ⟨some 10, some 1, true, 2⟩), (2, ⟨none, none, false, NULL⟩)]⟩, ⟨1, 2⟩, []⟩
    [(some 10, some 1)] (by decide) 3 (by decide)
  obtain ⟨s'', h4, _, h5⟩ := h3 [(30, 3), (40, 4)]
  exact ⟨s', h1, h2 1 (by decide), s'', h4, h5 3 (by decide)⟩

/-- C10: two invocations of `listener` started from states with the same node memory and the
same header, with the same `data` and `data_count`, return with the same node memory and the
same header, or fail in the same way, whatever their `event_type` and `symbol_name` are; and on
a well-formed buffer both store the first `data_count` elements of `data` as `(price, size)`
records, none filtered out. -/
theorem C10_event_type_irrelevant {D : Type} (env : Env D) (fuel : Nat)
    (data : List (dxf_trade_t D)) (data_count : Int) (s1 s2 : State D)
    (hh : s1.heap = s2.heap) (hl : s1.lle = s2.lle)
    (event_type1 event_type2 : Int) (symbol_name1 symbol_name2 : String) :
    (listener env fuel event_type1 symbol_name1 data data_count s1).buffer =
      (listener env fuel event_type2 symbol_name2 data data_count s2).buffer ∧
    (∀ L : List (Record D), Fresh env → WellFormed s1 L → data_count.toNat ≤ data.length →
      data_count.toNat < fuel →
      ∃ s1' s2', listener env fuel event_type1 symbol_name1 data data_count s1 = .done s1' ∧
        listener env fuel event_type2 symbol_name2 data data_count s2 = .done s2' ∧
        WellFormed s1' (L ++ (data.take data_count.toNat).map dxf_trade_t.record) ∧
        WellFormed s2' (L ++ (data.take data_count.toNat).map dxf_trade_t.record)) := by
  constructor
  · unfold listener
    exact listener_loop_buffer env data data_count fuel _ _ 0 hh hl
  · intro L hf hwf hlen hfuel
    have hwf2 : WellFormed s2 L := by
      unfold WellFormed at hwf ⊢
      rw [← hh, ← hl]
      exact hwf
    obtain ⟨s1', hrun1, hp1⟩ := listener_pushed env hf fuel
      ⟨event_type1, symbol_name1, data, data_count⟩ s1 L hwf hlen hfuel
    obtain ⟨s2', hrun2, hp2⟩ := listener_pushed env hf fuel
      ⟨event_type2, symbol_name2, data, data_count⟩ s2 L hwf2 hlen hfuel
    exact ⟨s1', s2', hrun1, hrun2, hp1.wf L hwf, hp2.wf L hwf2⟩

/-- Witness of C10: event type 0 with symbol `A` and event type 7 with symbol `B`. -/
theorem C10_event_type_irrelevant_witness :
    (listener (bump_env Nat) 3 0 "A" [trade 10 1, trade 20 2] 2 (empty_state Nat)).buffer =
      (listener (bump_env Nat) 3 7 "B" [trade 10 1, trade 20 2] 2 (empty_state Nat)).buffer :=
  (C10_event_type_irrelevant (bump_env Nat) 3 [trade 10 1, trade 20 2] 2 (empty_state Nat)
    (empty_state Nat) rfl rfl 0 7 "A" "B").1

end Listener
